import Mathlib

/-!
Verification of the starcoin-monitor core against its natural-language
specification.  Each Rust function relevant to the claims is shallowly
embedded as an executable Lean definition; machine integers (u64/u128)
are modelled as `Nat` with explicit `% 2 ^ 128` where the Rust code uses
wrapping arithmetic.  Fallible Rust functions returning `Result` are
modelled with `Except String`.
-/

/-! ## Hex decoding (the `hex` crate, as used by `parse_hex_amount`)

`hex::decode` accepts an even-length string of hex digits (both cases)
and fails otherwise. -/

/-- Value of a single hex digit character, `none` for non-digits. -/
def hexDigitVal (c : Char) : Option Nat :=
  let n := c.toNat
  if 48 ≤ n ∧ n ≤ 57 then some (n - 48)
  else if 97 ≤ n ∧ n ≤ 102 then some (n - 97 + 10)
  else if 65 ≤ n ∧ n ≤ 70 then some (n - 65 + 10)
  else none

/-- `hex::decode` on a list of characters: pairs of hex digits become
bytes; an odd number of digits or an invalid digit is an error. -/
def hexDecodeList : List Char → Option (List Nat)
  | [] => some []
  | [_] => none
  | c1 :: c2 :: rest =>
    match hexDigitVal c1, hexDigitVal c2, hexDecodeList rest with
    | some hi, some lo, some bs => some ((16 * hi + lo) :: bs)
    | _, _, _ => none

/-- Lowercase hex digit character for a value `< 16` (as produced by
standard hex encoding of bytes). -/
def hexDigitChar (n : Nat) : Char :=
  Char.ofNat (if n < 10 then 48 + n else 87 + n)

/-- Hex encoding of a byte list, two lowercase digits per byte. -/
def hexEncodeChars : List Nat → List Char
  | [] => []
  | b :: rest => hexDigitChar (b / 16) :: hexDigitChar (b % 16) :: hexEncodeChars rest

/-- Hex encoding of a byte list as a string (no `0x` mark). -/
def hexEncode (bytes : List Nat) : String := ⟨hexEncodeChars bytes⟩

/-! ## `parse_hex_amount` (src/daily_notification.rs) -/

/-- The Rust code strips a leading `0x` (`starts_with("0x")` then
`&hex_amount[2..]`). -/
def stripHexMark (l : List Char) : List Char :=
  match l with
  | c1 :: c2 :: rest => if c1 = '0' then (if c2 = 'x' then rest else c1 :: c2 :: rest) else c1 :: c2 :: rest
  | l => l

/-- The u128 modulus. -/
def u128Mod : Nat := 2 ^ 128

/-- `u128::wrapping_add`. -/
def wrappingAdd128 (a b : Nat) : Nat := (a + b) % u128Mod

/-- `u128::wrapping_shl`: the shift amount is taken mod 128. -/
def wrappingShl128 (b s : Nat) : Nat := (b * 2 ^ (s % 128)) % u128Mod

/-- The accumulation loop of `parse_hex_amount`:
`amount = amount.wrapping_add((byte as u128).wrapping_shl(i * 8))`
over the enumerated padded byte list. -/
def amountAccum : List Nat → Nat → Nat → Nat
  | [], _, acc => acc
  | b :: rest, i, acc => amountAccum rest (i + 1) (wrappingAdd128 acc (wrappingShl128 b (i * 8)))

/-- `parse_hex_amount` on the character list of its input string:
strip an optional `0x` mark, hex-decode, reject more than 16 bytes,
zero-pad to 16 bytes, and accumulate little-endian with wrapping
arithmetic. -/
def parseHexAmountChars (chars : List Char) : Except String Nat :=
  match hexDecodeList (stripHexMark chars) with
  | none => Except.error ("hex decode error")
  | some bytes =>
    if 16 < bytes.length then Except.error ("Amount exceeds u128 size")
    else Except.ok (amountAccum (bytes ++ List.replicate (16 - bytes.length) 0) 0 0)

/-- `parse_hex_amount` (src/daily_notification.rs). -/
def parse_hex_amount (s : String) : Except String Nat := parseHexAmountChars s.data

/-- The little-endian value of a byte sequence: the sum over `i` of
`byte[i] * 256 ^ i` (the reference value named by the specification). -/
def leVal : List Nat → Nat
  | [] => 0
  | b :: rest => b + 256 * leVal rest

/-! ### Arithmetic facts about the accumulation loop -/

lemma leVal_lt (l : List Nat) (h : ∀ b ∈ l, b < 256) : leVal l < 2 ^ (8 * l.length) := by
  induction l with
  | nil => simp [leVal]
  | cons b rest ih =>
    have hb : b < 256 := h b (List.mem_cons_self _ _)
    have hr : leVal rest < 2 ^ (8 * rest.length) :=
      ih (fun x hx => h x (List.mem_cons_of_mem _ hx))
    have h2 : 2 ^ (8 * (rest.length + 1)) = 256 * 2 ^ (8 * rest.length) := by
      rw [Nat.mul_add, Nat.pow_add]; ring
    simp only [leVal, List.length_cons, h2]
    calc b + 256 * leVal rest < 256 + 256 * leVal rest := by omega
      _ = 256 * (leVal rest + 1) := by ring
      _ ≤ 256 * 2 ^ (8 * rest.length) := Nat.mul_le_mul_left _ hr

lemma leVal_replicate_zero (k : Nat) : leVal (List.replicate k 0) = 0 := by
  induction k with
  | zero => rfl
  | succ n ih => simpa [List.replicate, leVal] using ih

lemma leVal_append_zeros (l : List Nat) (k : Nat) :
    leVal (l ++ List.replicate k 0) = leVal l := by
  induction l with
  | nil => simp [leVal, leVal_replicate_zero]
  | cons b rest ih => simp [leVal, ih]

lemma amountAccum_eq (l : List Nat) : ∀ i acc : Nat, (∀ b ∈ l, b < 256) →
    i + l.length ≤ 16 → acc < 2 ^ (8 * i) →
    amountAccum l i acc = acc + 2 ^ (8 * i) * leVal l := by
  induction l with
  | nil =>
    intro i acc _ _ _
    simp [amountAccum, leVal]
  | cons b rest ih =>
    intro i acc h hlen hacc
    have hb : b < 256 := h b (List.mem_cons_self _ _)
    have hi : i ≤ 15 := by
      simp only [List.length_cons] at hlen; omega
    have hpow : 2 ^ (8 * (i + 1)) = 2 ^ (8 * i) * 256 := by
      rw [Nat.mul_add, Nat.pow_add]
    have hmono : 2 ^ (8 * (i + 1)) ≤ 2 ^ 128 :=
      Nat.pow_le_pow_right (by norm_num) (by omega)
    have hsum : acc + b * 2 ^ (8 * i) < 2 ^ (8 * (i + 1)) := by
      have hble : b * 2 ^ (8 * i) ≤ 255 * 2 ^ (8 * i) :=
        Nat.mul_le_mul_right _ (by omega)
      have hlt : acc + b * 2 ^ (8 * i) < 256 * 2 ^ (8 * i) := by omega
      calc acc + b * 2 ^ (8 * i) < 256 * 2 ^ (8 * i) := hlt
        _ = 2 ^ (8 * (i + 1)) := by rw [hpow]; ring
    have hbshl : wrappingShl128 b (i * 8) = b * 2 ^ (8 * i) := by
      unfold wrappingShl128 u128Mod
      have hs : i * 8 % 128 = i * 8 := Nat.mod_eq_of_lt (by omega)
      rw [hs, Nat.mul_comm i 8]
      exact Nat.mod_eq_of_lt (lt_of_le_of_lt (by omega) (lt_of_lt_of_le hsum hmono))
    have hadd : wrappingAdd128 acc (b * 2 ^ (8 * i)) = acc + b * 2 ^ (8 * i) := by
      unfold wrappingAdd128 u128Mod
      exact Nat.mod_eq_of_lt (lt_of_lt_of_le hsum hmono)
    have hrec := ih (i + 1) (acc + b * 2 ^ (8 * i))
      (fun x hx => h x (List.mem_cons_of_mem _ hx))
      (by simp only [List.length_cons] at hlen; omega) hsum
    show amountAccum rest (i + 1) (wrappingAdd128 acc (wrappingShl128 b (i * 8))) = _
    rw [hbshl, hadd, hrec, leVal, hpow]
    ring

/-! ### Hex encode/decode round trip -/

lemma hexDigitVal_hexDigitChar {n : Nat} (h : n < 16) :
    hexDigitVal (hexDigitChar n) = some n := by
  interval_cases n <;> rfl

lemma hexDigitChar_ne_x {n : Nat} (h : n < 16) : hexDigitChar n ≠ 'x' := by
  interval_cases n <;> decide

lemma hexDecode_hexEncode (bytes : List Nat) (h : ∀ b ∈ bytes, b < 256) :
    hexDecodeList (hexEncodeChars bytes) = some bytes := by
  induction bytes with
  | nil => rfl
  | cons b rest ih =>
    have hb : b < 256 := h b (List.mem_cons_self _ _)
    have h1 : b / 16 < 16 := Nat.div_lt_of_lt_mul (by omega)
    have h2 : b % 16 < 16 := Nat.mod_lt _ (by norm_num)
    have hrest := ih (fun x hx => h x (List.mem_cons_of_mem _ hx))
    have hb' : 16 * (b / 16) + b % 16 = b := by omega
    simp only [hexEncodeChars, hexDecodeList, hexDigitVal_hexDigitChar h1,
      hexDigitVal_hexDigitChar h2, hrest, hb']

lemma stripHexMark_hexEncode (bytes : List Nat) (h : ∀ b ∈ bytes, b < 256) :
    stripHexMark (hexEncodeChars bytes) = hexEncodeChars bytes := by
  cases bytes with
  | nil => rfl
  | cons b rest =>
    have h2 : b % 16 < 16 := Nat.mod_lt _ (by norm_num)
    have hx : hexDigitChar (b % 16) ≠ 'x' := hexDigitChar_ne_x h2
    simp [hexEncodeChars, stripHexMark, hx]

/-- C1: for every byte sequence of length at most 16, `parse_hex_amount`
on its hex encoding returns the little-endian interpretation
`∑ byte[i] * 256 ^ i` (zero-padded to 16 bytes); for more than 16 bytes
it returns an explicit decode error.  `decode("0x64") = 100` and
`decode("0x0a000000000000000000000000000000") = 10`. -/
theorem c1_parse_hex_amount_little_endian :
    (∀ bytes : List Nat, (∀ b ∈ bytes, b < 256) →
      (bytes.length ≤ 16 →
        parse_hex_amount (hexEncode bytes) = Except.ok (leVal bytes)) ∧
      (16 < bytes.length →
        parse_hex_amount (hexEncode bytes) = Except.error ("Amount exceeds u128 size"))) ∧
    parse_hex_amount ("0x64") = Except.ok 100 ∧
    parse_hex_amount ("0x0a000000000000000000000000000000") = Except.ok 10 := by
  refine ⟨?_, by rfl, by rfl⟩
  intro bytes h
  have hdata : (hexEncode bytes).data = hexEncodeChars bytes := rfl
  constructor
  · intro hlen
    show parseHexAmountChars (hexEncode bytes).data = _
    rw [hdata]
    unfold parseHexAmountChars
    rw [stripHexMark_hexEncode bytes h, hexDecode_hexEncode bytes h]
    simp only [if_neg (by omega : ¬ 16 < bytes.length)]
    have hpadded : ∀ b ∈ bytes ++ List.replicate (16 - bytes.length) 0, b < 256 := by
      intro x hx
      rcases List.mem_append.mp hx with hx | hx
      · exact h x hx
      · have := List.eq_of_mem_replicate hx
        omega
    have hlenp : 0 + (bytes ++ List.replicate (16 - bytes.length) 0).length ≤ 16 := by
      simp [List.length_append, List.length_replicate]
      omega
    rw [amountAccum_eq _ 0 0 hpadded hlenp (by norm_num)]
    rw [leVal_append_zeros]
    simp
  · intro hlen
    show parseHexAmountChars (hexEncode bytes).data = _
    rw [hdata]
    unfold parseHexAmountChars
    rw [stripHexMark_hexEncode bytes h, hexDecode_hexEncode bytes h]
    simp only [if_pos hlen]

theorem c1_witness :
    parse_hex_amount (hexEncode [16, 1]) = Except.ok (leVal [16, 1]) :=
  (c1_parse_hex_amount_little_endian.1 [16, 1] (by decide)).1 (by decide)

/-- C10: the raw hex amount decoder maps the empty byte sequence to zero,
not to an error: both the empty string and the bare mark string decode to
`Ok(0)`. -/
theorem c10_parse_hex_amount_empty :
    parse_hex_amount ("") = Except.ok 0 ∧ parse_hex_amount ("0x") = Except.ok 0 :=
  ⟨rfl, rfl⟩

/-! ## Index-lag watchdog (src/index_monitor_logic.rs)

`should_notify_based_on_time` reads the clock internally in Rust; the
embedding takes the current time `now` as an explicit parameter. -/

structure IndexMonitorConfig where
  max_block_difference : Nat
  max_notify_time_interval : Nat
deriving DecidableEq

structure NotificationState where
  latest_notify_time : Nat
deriving DecidableEq

inductive IndexMonitorResult where
  | NoAction
  | ShouldWait
  | ShouldNotify (current_block cached_block : Nat) (difference : Nat)
deriving DecidableEq

/-- `is_current_block_behind` (src/index_monitor_logic.rs). -/
def is_current_block_behind (current_block cached_block : Nat) : Bool :=
  decide (current_block < cached_block)

/-- `has_significant_block_difference` (src/index_monitor_logic.rs). -/
def has_significant_block_difference (current_block cached_block max_difference : Nat) : Bool :=
  if current_block ≤ cached_block then false
  else decide (current_block - cached_block > max_difference)

/-- `should_notify_based_on_time` (src/index_monitor_logic.rs). -/
def should_notify_based_on_time (latest_notify_time max_interval now : Nat) : Bool :=
  if latest_notify_time = 0 then true
  else decide (now - latest_notify_time > max_interval)

/-- `check_index_monitor_state` (src/index_monitor_logic.rs). -/
def check_index_monitor_state (current_block cached_block : Nat)
    (notification_state : NotificationState) (config : IndexMonitorConfig)
    (now : Nat) : IndexMonitorResult :=
  if is_current_block_behind current_block cached_block then
    IndexMonitorResult.ShouldWait
  else if has_significant_block_difference current_block cached_block
      config.max_block_difference then
    if should_notify_based_on_time notification_state.latest_notify_time
        config.max_notify_time_interval now then
      IndexMonitorResult.ShouldNotify current_block cached_block
        (current_block - cached_block)
    else IndexMonitorResult.NoAction
  else IndexMonitorResult.NoAction

/-- `update_notification_state` (src/index_monitor_logic.rs), with the
clock passed explicitly. -/
def update_notification_state (state : NotificationState) (now : Nat) :
    NotificationState :=
  { state with latest_notify_time := now }

/-- One iteration of the caller protocol of `StcScanMonitor::run`
(src/stcscan_monitor.rs): run the check and update the notification
state only on a ShouldNotify transition. -/
def monitor_step (current_block cached_block : Nat)
    (state : NotificationState) (config : IndexMonitorConfig) (now : Nat) :
    IndexMonitorResult × NotificationState :=
  match check_index_monitor_state current_block cached_block state config now with
  | IndexMonitorResult.ShouldNotify c b d =>
    (IndexMonitorResult.ShouldNotify c b d, update_notification_state state now)
  | r => (r, state)

/-- `MAX_NOTIFY_TIME_INTERVAL` (src/stc_scan_monitor.rs). -/
def MAX_NOTIFY_TIME_INTERVAL : Nat := 600

/-- `MAC_BLOCK_DIFFER` (src/stc_scan_monitor.rs). -/
def MAC_BLOCK_DIFFER : Nat := 1000

/-- The notify condition of the loop body of `StcScanMonitor::run` in
src/stc_scan_monitor.rs (reached only when
`current_block_number >= cached_index_number`):
`(current - cached) > MAC_BLOCK_DIFFER && (latest_notify_time != 0 ||
now - latest_notify_time > MAX_NOTIFY_TIME_INTERVAL)`. -/
def stc_scan_notify_condition (current_block cached_block latest_notify_time now : Nat) : Bool :=
  decide (current_block - cached_block > MAC_BLOCK_DIFFER) &&
    (decide (latest_notify_time ≠ 0) ||
      decide (now - latest_notify_time > MAX_NOTIFY_TIME_INTERVAL))

lemma is_current_block_behind_false {current cached : Nat} (h : cached ≤ current) :
    is_current_block_behind current cached = false := by
  unfold is_current_block_behind
  simp only [decide_eq_false_iff_not]
  omega

lemma has_significant_true {current cached m : Nat} (h : m < current - cached) :
    has_significant_block_difference current cached m = true := by
  unfold has_significant_block_difference
  rw [if_neg (by omega : ¬ current ≤ cached)]
  simp only [gt_iff_lt, decide_eq_true_eq]
  omega

lemma has_significant_false {current cached m : Nat} (h : current - cached ≤ m) :
    has_significant_block_difference current cached m = false := by
  unfold has_significant_block_difference
  by_cases hc : current ≤ cached
  · rw [if_pos hc]
  · rw [if_neg hc]
    simp only [gt_iff_lt, decide_eq_false_iff_not]
    omega

/-- C5: whenever the gap strictly exceeds `max_block_difference` and
`latest_notify_time == 0` ("never notified"), `check_index_monitor_state`
returns ShouldNotify carrying `difference = current - cached`, for every
current time and interval. -/
theorem c5_zero_latest_always_notifies :
    ∀ (current cached : Nat) (config : IndexMonitorConfig) (now : Nat),
      config.max_block_difference < current - cached →
      check_index_monitor_state current cached ⟨0⟩ config now =
        IndexMonitorResult.ShouldNotify current cached (current - cached) := by
  intro current cached config now h
  have h1 : is_current_block_behind current cached = false :=
    is_current_block_behind_false (by omega)
  have h2 : has_significant_block_difference current cached
      config.max_block_difference = true := has_significant_true h
  have h3 : should_notify_based_on_time 0 config.max_notify_time_interval now = true := by
    unfold should_notify_based_on_time
    rw [if_pos rfl]
  simp [check_index_monitor_state, h1, h2, h3]

theorem c5_witness :
    check_index_monitor_state 1200 100 ⟨0⟩ ⟨1000, 600⟩ 0 =
      IndexMonitorResult.ShouldNotify 1200 100 1100 :=
  c5_zero_latest_always_notifies 1200 100 ⟨1000, 600⟩ 0 (by decide)

/-- C6: the gap comparison is strictly greater-than: whenever the
difference is at most `max_block_difference` (in particular exactly equal
to it, or zero), the check returns NoAction. -/
theorem c6_strict_gap_comparison :
    ∀ (current cached : Nat) (state : NotificationState)
      (config : IndexMonitorConfig) (now : Nat),
      cached ≤ current →
      current - cached ≤ config.max_block_difference →
      check_index_monitor_state current cached state config now =
        IndexMonitorResult.NoAction := by
  intro current cached state config now hle hgap
  have h1 : is_current_block_behind current cached = false :=
    is_current_block_behind_false hle
  have h2 : has_significant_block_difference current cached
      config.max_block_difference = false := has_significant_false hgap
  simp [check_index_monitor_state, h1, h2]

theorem c6_witness :
    check_index_monitor_state 1100 100 ⟨0⟩ ⟨1000, 600⟩ 0 =
      IndexMonitorResult.NoAction :=
  c6_strict_gap_comparison 1100 100 ⟨0⟩ ⟨1000, 600⟩ 0 (by decide) (by decide)

/-- C4: the debounce of the pure state machine is correct — after a
notification has set a nonzero `latest_notify_time`, a repeat call with
the same over-threshold gap and `now - latest_notify_time` at most the
interval returns NoAction (first conjunct) — but the inline re-coded
condition of `StcScanMonitor::run` in src/stc_scan_monitor.rs uses
`latest_notify_time != 0 || ...` and therefore fires again 5 seconds
after a notification at time 1000 (remaining conjuncts), violating the
claimed at-most-one-notification-per-interval guarantee. -/
theorem c4_debounce_logic_vs_run_loop :
    (∀ (current cached : Nat) (config : IndexMonitorConfig) (latest now : Nat),
      config.max_block_difference < current - cached →
      latest ≠ 0 →
      now - latest ≤ config.max_notify_time_interval →
      check_index_monitor_state current cached ⟨latest⟩ config now =
        IndexMonitorResult.NoAction) ∧
    stc_scan_notify_condition 2000 0 0 1000 = true ∧
    check_index_monitor_state 2000 0 ⟨0⟩ ⟨1000, 600⟩ 1000 =
      IndexMonitorResult.ShouldNotify 2000 0 2000 ∧
    stc_scan_notify_condition 2000 0 1000 1005 = true ∧
    check_index_monitor_state 2000 0 ⟨1000⟩ ⟨1000, 600⟩ 1005 =
      IndexMonitorResult.NoAction := by
  refine ⟨?_, by decide, by decide, by decide, by decide⟩
  intro current cached config latest now hgap hlatest hnow
  have h1 : is_current_block_behind current cached = false :=
    is_current_block_behind_false (by omega)
  have h2 : has_significant_block_difference current cached
      config.max_block_difference = true := has_significant_true hgap
  have h3 : should_notify_based_on_time latest config.max_notify_time_interval now = false := by
    unfold should_notify_based_on_time
    rw [if_neg hlatest]
    simp only [gt_iff_lt, decide_eq_false_iff_not]
    omega
  simp [check_index_monitor_state, h1, h2, h3]

theorem c4_witness :
    check_index_monitor_state 2200 1000 ⟨900⟩ ⟨1000, 600⟩ 1000 =
      IndexMonitorResult.NoAction :=
  c4_debounce_logic_vs_run_loop.1 2200 1000 ⟨1000, 600⟩ 900 1000
    (by decide) (by decide) (by decide)

/-- C7: whenever the current block is behind the cached block, a monitor
step returns ShouldWait and leaves the notification state unchanged; more
generally the ShouldWait and NoAction outcomes never change the state. -/
theorem c7_wait_and_noaction_preserve_state :
    ∀ (current cached : Nat) (state : NotificationState)
      (config : IndexMonitorConfig) (now : Nat),
      (current < cached →
        monitor_step current cached state config now =
          (IndexMonitorResult.ShouldWait, state)) ∧
      (∀ r s2, monitor_step current cached state config now = (r, s2) →
        (r = IndexMonitorResult.ShouldWait ∨ r = IndexMonitorResult.NoAction) →
        s2 = state) := by
  intro current cached state config now
  constructor
  · intro hlt
    have h1 : is_current_block_behind current cached = true := by
      unfold is_current_block_behind
      simpa using hlt
    have hcheck : check_index_monitor_state current cached state config now =
        IndexMonitorResult.ShouldWait := by
      simp [check_index_monitor_state, h1]
    simp [monitor_step, hcheck]
  · intro r s2 hstep hr
    unfold monitor_step at hstep
    cases hc : check_index_monitor_state current cached state config now with
    | NoAction =>
      rw [hc] at hstep
      injection hstep with hfst hsnd
      exact hsnd.symm
    | ShouldWait =>
      rw [hc] at hstep
      injection hstep with hfst hsnd
      exact hsnd.symm
    | ShouldNotify c b d =>
      rw [hc] at hstep
      injection hstep with hfst hsnd
      subst hfst
      rcases hr with hr | hr <;> simp at hr

theorem c7_witness :
    monitor_step 100 200 ⟨7⟩ ⟨1000, 600⟩ 0 =
      (IndexMonitorResult.ShouldWait, (⟨7⟩ : NotificationState)) :=
  (c7_wait_and_noaction_preserve_state 100 200 ⟨7⟩ ⟨1000, 600⟩ 0).1 (by decide)

/-! ## Structured amount decoding (src/helper.rs `parse_txn_p2p_amount`)
and the per-transaction loop of `DefaultMonitorHandler::dispatch_block`
(src/monitor_handler/default_monitor_handler.rs).

Only the fields the functions read are modelled.  An argument is
modelled by the result of `.as_u64()` on it (`Option Nat`).  Rust
`Result` is modelled by `RustResult`, with a third outcome for the
panic of an out-of-bounds `args[i]` indexing. -/

inductive TransactionPayloadView where
  | ScriptFunction (module : String) (function : String) (args : List (Option Nat))
  | OtherPayload
deriving DecidableEq

structure RawUserTransactionView where
  decoded_payload : Option TransactionPayloadView
deriving DecidableEq

structure SignedUserTransactionView where
  transaction_hash : Nat
  raw_txn : RawUserTransactionView
deriving DecidableEq

inductive RustResult (α : Type) where
  | ok (a : α)
  | err (msg : String)
  | panicked
deriving DecidableEq

def transfer_scripts_module : String :=
  "0x00000000000000000000000000000001::TransferScripts"

/-- `parse_txn_p2p_amount` (src/helper.rs): requires a decoded payload
(`ok_or(anyhow!("should decode txn"))?`), matches the two recognized
transfer operations, reads the positional argument with a panicking
index, and yields `Ok(None)` for every other operation or payload. -/
def parse_txn_p2p_amount (txn_view : SignedUserTransactionView) : RustResult (Option Nat) :=
  match txn_view.raw_txn.decoded_payload with
  | none => RustResult.err ("should decode txn")
  | some (TransactionPayloadView.ScriptFunction module function args) =>
    if module = transfer_scripts_module ∧ function = "peer_to_peer_v2" then
      match args.get? 1 with
      | none => RustResult.panicked
      | some a => RustResult.ok a
    else if module = transfer_scripts_module ∧ function = "peer_to_peer" then
      match args.get? 2 with
      | none => RustResult.panicked
      | some a => RustResult.ok a
    else RustResult.ok none
  | some TransactionPayloadView.OtherPayload => RustResult.ok none

/-- The per-transaction loop of `dispatch_block`
(src/monitor_handler/default_monitor_handler.rs):
`if let Some(amount) = helper::parse_txn_p2p_amount(txn)? { if amount >
min { send } }`.  The `?` propagates a decode error, aborting the rest of
the batch.  The result collects the `(txn_hash, amount)` alerts sent. -/
def dispatch_block_alerts (min_transaction_amount : Nat) :
    List SignedUserTransactionView → RustResult (List (Nat × Nat))
  | [] => RustResult.ok []
  | txn :: rest =>
    match parse_txn_p2p_amount txn with
    | RustResult.err e => RustResult.err e
    | RustResult.panicked => RustResult.panicked
    | RustResult.ok none => dispatch_block_alerts min_transaction_amount rest
    | RustResult.ok (some amount) =>
      if min_transaction_amount < amount then
        match dispatch_block_alerts min_transaction_amount rest with
        | RustResult.ok l => RustResult.ok ((txn.transaction_hash, amount) :: l)
        | other => other
      else dispatch_block_alerts min_transaction_amount rest

/-- C2 counterexample: a transaction whose payload could not be decoded
makes `parse_txn_p2p_amount` return an error, not "no amount", and that
error aborts the whole batch in `dispatch_block`: the over-threshold
transfer after it is never alerted, though alone it would be. -/
theorem c2_counterexample_decode_error_aborts_batch :
    parse_txn_p2p_amount ⟨1, ⟨none⟩⟩ ≠ RustResult.ok none ∧
    parse_txn_p2p_amount ⟨1, ⟨none⟩⟩ = RustResult.err ("should decode txn") ∧
    dispatch_block_alerts 100
      [⟨1, ⟨none⟩⟩,
       ⟨2, ⟨some (TransactionPayloadView.ScriptFunction transfer_scripts_module
          ("peer_to_peer_v2") [some 0, some 500])⟩⟩] =
      RustResult.err ("should decode txn") ∧
    dispatch_block_alerts 100
      [⟨2, ⟨some (TransactionPayloadView.ScriptFunction transfer_scripts_module
          ("peer_to_peer_v2") [some 0, some 500])⟩⟩] =
      RustResult.ok [(2, 500)] := by
  refine ⟨by decide, rfl, rfl, rfl⟩

/-- C2 amended: for transaction views whose payload was decoded, an
operation that is not one of the two recognized peer-to-peer transfers
yields "no amount" (`Ok(None)`) rather than an error; but a transaction
view without a decoded payload yields an explicit error (which
`dispatch_block` propagates, aborting its batch). -/
theorem c2_amended_unrecognized_yields_none :
    ∀ (h : Nat) (module function : String) (args : List (Option Nat)),
      ¬(module = transfer_scripts_module ∧
        (function = "peer_to_peer_v2" ∨ function = "peer_to_peer")) →
      parse_txn_p2p_amount
          ⟨h, ⟨some (TransactionPayloadView.ScriptFunction module function args)⟩⟩ =
        RustResult.ok none ∧
      parse_txn_p2p_amount ⟨h, ⟨some TransactionPayloadView.OtherPayload⟩⟩ =
        RustResult.ok none ∧
      parse_txn_p2p_amount ⟨h, ⟨none⟩⟩ = RustResult.err ("should decode txn") := by
  intro h module function args hne
  have h1 : ¬(module = transfer_scripts_module ∧ function = "peer_to_peer_v2") :=
    fun hx => hne ⟨hx.1, Or.inl hx.2⟩
  have h2 : ¬(module = transfer_scripts_module ∧ function = "peer_to_peer") :=
    fun hx => hne ⟨hx.1, Or.inr hx.2⟩
  refine ⟨?_, rfl, rfl⟩
  show (if module = transfer_scripts_module ∧ function = "peer_to_peer_v2" then _
    else if module = transfer_scripts_module ∧ function = "peer_to_peer" then _
    else RustResult.ok none) = RustResult.ok none
  rw [if_neg h1, if_neg h2]

theorem c2_witness :
    parse_txn_p2p_amount
        ⟨3, ⟨some (TransactionPayloadView.ScriptFunction ("0x00000000000000000000000000000001::Account")
          ("create_account") [some 7])⟩⟩ = RustResult.ok none ∧
      parse_txn_p2p_amount ⟨3, ⟨some TransactionPayloadView.OtherPayload⟩⟩ =
        RustResult.ok none ∧
      parse_txn_p2p_amount ⟨3, ⟨none⟩⟩ = RustResult.err ("should decode txn") :=
  c2_amended_unrecognized_yields_none 3 ("0x00000000000000000000000000000001::Account")
    ("create_account") [some 7] (by decide)

/-! ## Block-to-transaction extraction (src/helper.rs
`extract_full_txn_from_block_view`)

Transactions are modelled by identifiers (`Nat`); `fetch` stands for
`chain_get_transaction(hash).ok().flatten()`, whose found record carries
an optional `user_transaction`. -/

structure TransactionInfo where
  user_transaction : Option Nat
deriving DecidableEq

inductive BlockTransactionsView where
  | Hashes (txn_hashes : List Nat)
  | Full (txs : List Nat)
deriving DecidableEq

structure BlockView where
  body : BlockTransactionsView
deriving DecidableEq

/-- The first loop of `extract_full_txn_from_block_view`: extend the
hash list or the full-transaction list from each block's body. -/
def collectStep (acc : List Nat × List Nat) (b : BlockView) : List Nat × List Nat :=
  match b.body with
  | BlockTransactionsView.Hashes hs => (acc.1 ++ hs, acc.2)
  | BlockTransactionsView.Full ts => (acc.1, acc.2 ++ ts)

/-- The second loop: fetch each hash, pushing the found record's
`user_transaction` when both are present. -/
def fetchStep (fetch : Nat → Option TransactionInfo) (acc : List Nat) (h : Nat) : List Nat :=
  match fetch h with
  | some txn =>
    match txn.user_transaction with
    | some u => acc ++ [u]
    | none => acc
  | none => acc

/-- `extract_full_txn_from_block_view` (src/helper.rs): early return on
an empty input, one pass collecting hashes-to-fetch and full
transactions over all blocks, one pass fetching, and finally
`all_transactions.extend(full_transactions)`. -/
def extract_full_txn_from_block_view (fetch : Nat → Option TransactionInfo)
    (block_views : List BlockView) : List Nat :=
  if block_views.isEmpty then []
  else
    ((block_views.foldl collectStep ([], [])).1.foldl (fetchStep fetch) []) ++
      (block_views.foldl collectStep ([], [])).2

def hashesOf (b : BlockView) : List Nat :=
  match b.body with
  | BlockTransactionsView.Hashes hs => hs
  | BlockTransactionsView.Full _ => []

def fullsOf (b : BlockView) : List Nat :=
  match b.body with
  | BlockTransactionsView.Full ts => ts
  | BlockTransactionsView.Hashes _ => []

def concatMapBlocks (f : BlockView → List Nat) : List BlockView → List Nat
  | [] => []
  | b :: rest => f b ++ concatMapBlocks f rest

/-- Resolution of one hash: the fetched record's user transaction, if
any. -/
def resolveHash (fetch : Nat → Option TransactionInfo) (h : Nat) : Option Nat :=
  (fetch h).bind TransactionInfo.user_transaction

/-- The extractor as the specification words it (for comparison with the
code): per input block, full bodies contribute directly and hash bodies
are resolved inline, in input block order. -/
def resolve_full_transactions_spec (fetch : Nat → Option TransactionInfo)
    (block_views : List BlockView) : List Nat :=
  concatMapBlocks (fun b =>
    match b.body with
    | BlockTransactionsView.Full ts => ts
    | BlockTransactionsView.Hashes hs => hs.filterMap (resolveHash fetch)) block_views

lemma foldl_collectStep (blocks : List BlockView) : ∀ acc : List Nat × List Nat,
    blocks.foldl collectStep acc =
      (acc.1 ++ concatMapBlocks hashesOf blocks, acc.2 ++ concatMapBlocks fullsOf blocks) := by
  induction blocks with
  | nil => intro acc; simp [concatMapBlocks]
  | cons b rest ih =>
    intro acc
    rw [List.foldl_cons, ih]
    cases hb : b.body with
    | Hashes hs =>
      simp [collectStep, hashesOf, fullsOf, hb, concatMapBlocks, List.append_assoc]
    | Full ts =>
      simp [collectStep, hashesOf, fullsOf, hb, concatMapBlocks, List.append_assoc]

lemma foldl_fetchStep (fetch : Nat → Option TransactionInfo) (hs : List Nat) :
    ∀ acc : List Nat,
      hs.foldl (fetchStep fetch) acc = acc ++ hs.filterMap (resolveHash fetch) := by
  induction hs with
  | nil => intro acc; simp
  | cons h rest ih =>
    intro acc
    rw [List.foldl_cons, ih]
    cases hf : fetch h with
    | none => simp [fetchStep, hf, List.filterMap_cons, resolveHash]
    | some txn =>
      cases hu : txn.user_transaction with
      | none => simp [fetchStep, hf, hu, List.filterMap_cons, resolveHash]
      | some u => simp [fetchStep, hf, hu, List.filterMap_cons, resolveHash]

/-- C8 counterexample: with a full-bodied block before a hash-bodied
block, the code emits the hash-resolved transaction before the full one,
while the claimed inline-per-block order puts the full one first. -/
theorem c8_counterexample_full_blocks_come_last :
    extract_full_txn_from_block_view (fun h => if h = 7 then some ⟨some 2⟩ else none)
        [⟨BlockTransactionsView.Full [1]⟩, ⟨BlockTransactionsView.Hashes [7]⟩] = [2, 1] ∧
    resolve_full_transactions_spec (fun h => if h = 7 then some ⟨some 2⟩ else none)
        [⟨BlockTransactionsView.Full [1]⟩, ⟨BlockTransactionsView.Hashes [7]⟩] = [1, 2] ∧
    extract_full_txn_from_block_view (fun h => if h = 7 then some ⟨some 2⟩ else none)
        [⟨BlockTransactionsView.Full [1]⟩, ⟨BlockTransactionsView.Hashes [7]⟩] ≠
      resolve_full_transactions_spec (fun h => if h = 7 then some ⟨some 2⟩ else none)
        [⟨BlockTransactionsView.Full [1]⟩, ⟨BlockTransactionsView.Hashes [7]⟩] := by
  refine ⟨rfl, rfl, by decide⟩

/-- C8 amended: full bodies contribute directly, hash identifiers are
fetched individually with unresolvable ones silently dropped, and
ordering is preserved within each category and follows the input block
order inside it; but hash resolution is batched after scanning all
blocks, so the output is all hash-resolved transactions first, followed
by all full-body transactions. -/
theorem c8_extractor_batched_order :
    ∀ (fetch : Nat → Option TransactionInfo) (block_views : List BlockView),
      extract_full_txn_from_block_view fetch block_views =
        (concatMapBlocks hashesOf block_views).filterMap (resolveHash fetch) ++
          concatMapBlocks fullsOf block_views := by
  intro fetch block_views
  cases block_views with
  | nil => rfl
  | cons b rest =>
    rw [show extract_full_txn_from_block_view fetch (b :: rest) =
      ((List.foldl collectStep ([], []) (b :: rest)).1.foldl (fetchStep fetch) []) ++
        (List.foldl collectStep ([], []) (b :: rest)).2 from rfl]
    rw [foldl_collectStep, foldl_fetchStep]
    simp

/-! ## Daily digest filtering (src/daily_notification.rs
`process_transfers`)

The ES `HashSet` of seen hashes is modelled by a list with membership;
only membership and insertion are used. -/

structure TransferDocument where
  amount : String
  amount_value : Option Nat
  identifier : String
  receiver : String
  sender : String
  timestamp : Int
  txn_hash : String
  type_tag : String
deriving DecidableEq

structure EsHit where
  source : TransferDocument
deriving DecidableEq

/-- The loop of `process_transfers` (src/daily_notification.rs): skip a
hit whose `txn_hash` was already seen; otherwise, if its hex amount
parses and is at least the minimum, record the hash as seen and output
the document; otherwise skip it (without recording the hash). -/
def process_transfers_aux (min_amount : Nat) (seen_hashes : List String) :
    List EsHit → List TransferDocument
  | [] => []
  | hit :: rest =>
    if hit.source.txn_hash ∈ seen_hashes then
      process_transfers_aux min_amount seen_hashes rest
    else
      match parse_hex_amount hit.source.amount with
      | Except.ok amount =>
        if min_amount ≤ amount then
          hit.source ::
            process_transfers_aux min_amount (hit.source.txn_hash :: seen_hashes) rest
        else process_transfers_aux min_amount seen_hashes rest
      | Except.error _ => process_transfers_aux min_amount seen_hashes rest

/-- `process_transfers` (src/daily_notification.rs). -/
def process_transfers (hits : List EsHit) (min_amount : Nat) : List TransferDocument :=
  process_transfers_aux min_amount [] hits

lemma process_transfers_aux_cons_seen {min_amount : Nat} {seen : List String}
    {hit : EsHit} {rest : List EsHit} (h : hit.source.txn_hash ∈ seen) :
    process_transfers_aux min_amount seen (hit :: rest) =
      process_transfers_aux min_amount seen rest := by
  simp [process_transfers_aux, h]

lemma process_transfers_aux_cons_push {min_amount : Nat} {seen : List String}
    {hit : EsHit} {rest : List EsHit} {a : Nat}
    (h1 : hit.source.txn_hash ∉ seen)
    (h2 : parse_hex_amount hit.source.amount = Except.ok a)
    (h3 : min_amount ≤ a) :
    process_transfers_aux min_amount seen (hit :: rest) =
      hit.source ::
        process_transfers_aux min_amount (hit.source.txn_hash :: seen) rest := by
  simp [process_transfers_aux, h1, h2, h3]

lemma process_transfers_aux_cons_low {min_amount : Nat} {seen : List String}
    {hit : EsHit} {rest : List EsHit} {a : Nat}
    (h1 : hit.source.txn_hash ∉ seen)
    (h2 : parse_hex_amount hit.source.amount = Except.ok a)
    (h3 : ¬ min_amount ≤ a) :
    process_transfers_aux min_amount seen (hit :: rest) =
      process_transfers_aux min_amount seen rest := by
  simp [process_transfers_aux, h1, h2, h3]

lemma process_transfers_aux_cons_err {min_amount : Nat} {seen : List String}
    {hit : EsHit} {rest : List EsHit} {e : String}
    (h1 : hit.source.txn_hash ∉ seen)
    (h2 : parse_hex_amount hit.source.amount = Except.error e) :
    process_transfers_aux min_amount seen (hit :: rest) =
      process_transfers_aux min_amount seen rest := by
  simp [process_transfers_aux, h1, h2]

lemma process_transfers_aux_seen (min_amount : Nat) (x : String) (hits : List EsHit) :
    ∀ seen : List String, x ∈ seen →
      ∀ t ∈ process_transfers_aux min_amount seen hits, t.txn_hash ≠ x := by
  induction hits with
  | nil =>
    intro seen _ t ht
    simp [process_transfers_aux] at ht
  | cons hit rest ih =>
    intro seen hx t ht
    by_cases hmem : hit.source.txn_hash ∈ seen
    · rw [process_transfers_aux_cons_seen hmem] at ht
      exact ih seen hx t ht
    · cases hp : parse_hex_amount hit.source.amount with
      | error e =>
        rw [process_transfers_aux_cons_err hmem hp] at ht
        exact ih seen hx t ht
      | ok amount =>
        by_cases hge : min_amount ≤ amount
        · rw [process_transfers_aux_cons_push hmem hp hge] at ht
          rcases List.mem_cons.mp ht with rfl | ht2
          · exact fun hc => hmem (by rw [hc]; exact hx)
          · exact ih (hit.source.txn_hash :: seen) (List.mem_cons_of_mem _ hx) t ht2
        · rw [process_transfers_aux_cons_low hmem hp hge] at ht
          exact ih seen hx t ht

lemma process_transfers_aux_first_wins (min_amount : Nat) (r : TransferDocument)
    (amount : Nat) (hparse : parse_hex_amount r.amount = Except.ok amount)
    (hmin : min_amount ≤ amount) (post : List EsHit) :
    ∀ (pre : List EsHit) (seen : List String), r.txn_hash ∉ seen →
      (∀ h ∈ pre, h.source.txn_hash ≠ r.txn_hash) →
      (process_transfers_aux min_amount seen (pre ++ EsHit.mk r :: post)).filter
          (fun t => t.txn_hash == r.txn_hash) = [r] := by
  intro pre
  induction pre with
  | nil =>
    intro seen hseen _
    show (process_transfers_aux min_amount seen (EsHit.mk r :: post)).filter _ = [r]
    rw [process_transfers_aux_cons_push hseen hparse hmin, List.filter_cons]
    have hself : (r.txn_hash == r.txn_hash) = true := by simp
    show (if ((EsHit.mk r).source.txn_hash == r.txn_hash) = true then _ else _) = _
    rw [hself]
    simp only [if_true]
    have hrest : ∀ t ∈ process_transfers_aux min_amount (r.txn_hash :: seen) post,
        t.txn_hash ≠ r.txn_hash :=
      process_transfers_aux_seen min_amount r.txn_hash post (r.txn_hash :: seen)
        (List.mem_cons_self _ _)
    have hnil : (process_transfers_aux min_amount (r.txn_hash :: seen) post).filter
        (fun t => t.txn_hash == r.txn_hash) = [] := by
      rw [List.filter_eq_nil_iff]
      intro t ht
      simpa using hrest t ht
    rw [hnil]
  | cons hit pre2 ih =>
    intro seen hseen hpre
    have hne : hit.source.txn_hash ≠ r.txn_hash := hpre hit (List.mem_cons_self _ _)
    have hpre2 : ∀ h ∈ pre2, h.source.txn_hash ≠ r.txn_hash :=
      fun h hh => hpre h (List.mem_cons_of_mem _ hh)
    rw [List.cons_append]
    by_cases hmem : hit.source.txn_hash ∈ seen
    · rw [process_transfers_aux_cons_seen hmem]
      exact ih seen hseen hpre2
    · cases hp : parse_hex_amount hit.source.amount with
      | error e =>
        rw [process_transfers_aux_cons_err hmem hp]
        exact ih seen hseen hpre2
      | ok a =>
        by_cases hge : min_amount ≤ a
        · rw [process_transfers_aux_cons_push hmem hp hge, List.filter_cons]
          have hfalse : (hit.source.txn_hash == r.txn_hash) = false := by
            simpa using hne
          rw [hfalse]
          simp only [Bool.false_eq_true, if_false]
          have hseen2 : r.txn_hash ∉ hit.source.txn_hash :: seen := by
            intro hc
            rcases List.mem_cons.mp hc with hc | hc
            · exact hne hc.symm
            · exact hseen hc
          exact ih (hit.source.txn_hash :: seen) hseen2 hpre2
        · rw [process_transfers_aux_cons_low hmem hp hge]
          exact ih seen hseen hpre2

theorem c9_digest_dedup_first_wins :
    ∀ (min_amount : Nat) (pre post : List EsHit) (r : TransferDocument),
      (∀ h ∈ pre, h.source.txn_hash ≠ r.txn_hash) →
      (∃ amount, parse_hex_amount r.amount = Except.ok amount ∧ min_amount ≤ amount) →
      (process_transfers (pre ++ EsHit.mk r :: post) min_amount).filter
          (fun t => t.txn_hash == r.txn_hash) = [r] := by
  intro min_amount pre post r hpre hex
  obtain ⟨a, hp, hm⟩ := hex
  exact process_transfers_aux_first_wins min_amount r a hp hm post pre []
    (by simp) hpre

def sampleTransferA : TransferDocument :=
  ⟨"0x64", some 100, "peer_to_peer", "0xaa", "0xbb", 0, "0xh1", "STC"⟩

def sampleTransferB : TransferDocument :=
  ⟨"0xc8", some 200, "peer_to_peer_v2", "0xcc", "0xdd", 1, "0xh1", "STC"⟩

theorem c9_witness :
    (process_transfers [EsHit.mk sampleTransferA, EsHit.mk sampleTransferB] 50).filter
        (fun t => t.txn_hash == sampleTransferA.txn_hash) = [sampleTransferA] :=
  c9_digest_dedup_first_wins 50 [] [EsHit.mk sampleTransferB] sampleTransferA
    (by simp) ⟨100, by rfl, by decide⟩

/-! ## Resilient message dispatch (src/telegram.rs
`send_message_to_chat`)

The transport (`bot.send_message`) is abstracted by `succeeds n`, the
outcome of the n-th transport call (0-indexed); the embedding returns
the trace of transport calls (text sent and whether MarkdownV2
formatting was requested) together with the overall success. -/

/-- The MarkdownV2 special characters of `escape_markdown_v2`
(src/telegram.rs), by character code. -/
def markdownSpecialChars : List Char :=
  [95, 42, 91, 93, 40, 41, 126, 96, 62, 35, 43, 45, 61, 124, 123, 125, 46, 33].map Char.ofNat

/-- The escaping loop: push a backslash (code 92) before each special
character. -/
def escapeChars : List Char → List Char
  | [] => []
  | c :: rest =>
    if c ∈ markdownSpecialChars then Char.ofNat 92 :: c :: escapeChars rest
    else c :: escapeChars rest

/-- `escape_markdown_v2` (src/telegram.rs). -/
def escape_markdown_v2 (text : String) : String := ⟨escapeChars text.data⟩

structure SendAttempt where
  text : String
  markdown : Bool
deriving DecidableEq

/-- The retry loop of `send_message_to_chat` (src/telegram.rs).  `fuel`
is `max_retries + 1 - retries`: each iteration attempts the escaped
message with MarkdownV2; on failure, when `retries >= max_retries`
(i.e. `fuel = 1`) one final plain attempt sends the original message and
the loop ends, otherwise `retries` is incremented and the loop
repeats. -/
def sendLoopAux (succeeds : Nat → Bool) (escaped original : String) :
    Nat → Nat → List SendAttempt × Bool
  | _, 0 => ([], false)
  | idx, fuel + 1 =>
    if succeeds idx then ([⟨escaped, true⟩], true)
    else if fuel = 0 then
      ([⟨escaped, true⟩, ⟨original, false⟩], succeeds (idx + 1))
    else
      ((⟨escaped, true⟩ : SendAttempt) ::
          (sendLoopAux succeeds escaped original (idx + 1) fuel).1,
        (sendLoopAux succeeds escaped original (idx + 1) fuel).2)

/-- `max_retries` (src/telegram.rs). -/
def max_retries : Nat := 3

/-- `send_message_to_chat` (src/telegram.rs): escape the message, then
run the retry loop starting at `retries = 0`. -/
def send_message_to_chat (succeeds : Nat → Bool) (message : String) :
    List SendAttempt × Bool :=
  sendLoopAux succeeds (escape_markdown_v2 message) message 0 (max_retries + 1)

/-- C3 counterexample: with a transport failing the first 3 calls and
succeeding on the 4th, `send` does return success after exactly 4
transport calls — but the 4th call is still a MarkdownV2-formatted
attempt carrying the escaped text, not the plain-text fallback with the
original text that the claim describes. -/
theorem c3_counterexample_fourth_call_is_formatted :
    (send_message_to_chat (fun i => decide (i = 3)) "hi.").2 = true ∧
    (send_message_to_chat (fun i => decide (i = 3)) "hi.").1 =
      [⟨"hi\\.", true⟩, ⟨"hi\\.", true⟩, ⟨"hi\\.", true⟩, ⟨"hi\\.", true⟩] ∧
    (send_message_to_chat (fun i => decide (i = 3)) "hi.").1.getLast? ≠
      some ⟨"hi.", false⟩ := by
  refine ⟨rfl, rfl, by decide⟩

/-- C3 amended: the code makes up to 4 rich-format attempts (1 initial +
3 retries) before the plain fallback; for a transport failing the first
4 attempts and succeeding on the 5th, `send` returns success and exactly
5 transport calls are made, the last without formatting and carrying the
original unescaped text. -/
theorem c3_retry_then_plain_fallback :
    ∀ (succeeds : Nat → Bool) (message : String),
      succeeds 0 = false → succeeds 1 = false → succeeds 2 = false →
      succeeds 3 = false → succeeds 4 = true →
      send_message_to_chat succeeds message =
        ([⟨escape_markdown_v2 message, true⟩, ⟨escape_markdown_v2 message, true⟩,
          ⟨escape_markdown_v2 message, true⟩, ⟨escape_markdown_v2 message, true⟩,
          ⟨message, false⟩], true) := by
  intro succeeds message h0 h1 h2 h3 h4
  show sendLoopAux succeeds (escape_markdown_v2 message) message 0 (3 + 1) = _
  simp [sendLoopAux, h0, h1, h2, h3, h4]

theorem c3_witness :
    send_message_to_chat (fun i => decide (i = 4)) "ok" =
      ([⟨"ok", true⟩, ⟨"ok", true⟩, ⟨"ok", true⟩, ⟨"ok", true⟩, ⟨"ok", false⟩], true) :=
  c3_retry_then_plain_fallback (fun i => decide (i = 4)) "ok"
    (by decide) (by decide) (by decide) (by decide) (by decide)
